import Mathlib

/-
Verification of the Query Normalization & Safe-Execution Pipeline of the
mcp-oci-logan-server repository.  The Python sources are shallowly embedded:
strings are Lean `String`s (internally `List Char`), and every Python string
operation used by the pipeline (str.replace, str.find, str.strip, str.lower,
`in`, slicing, and the handful of regular expressions) is modelled by an
executable Lean function with the same semantics on the ASCII inputs the
pipeline handles.  The regular expressions used by the source are simple
enough that greedy matching is deterministic (no productive backtracking),
which the scanner functions below exploit.
-/

set_option maxRecDepth 8000

namespace OciLogan

/-! ## Python-style character and string primitives over `List Char` -/

/-- Whitespace as recognised by Python `str.strip` / regex `\s` (ASCII part). -/
def isPySpace (c : Char) : Bool :=
  c = ' ' || c = '\t' || c = '\n' || c = '\r' || c = '\x0b' || c = '\x0c'

/-- Python regex `\w` (ASCII part): letters, digits, underscore. -/
def isWordChar (c : Char) : Bool := c.isAlpha || c.isDigit || c = '_'

/-- `isPrefixList p l`: the pattern `p` is a prefix of `l`. -/
def isPrefixList : List Char → List Char → Bool
  | [], _ => true
  | _ :: _, [] => false
  | p :: ps, c :: cs => p = c && isPrefixList ps cs

/-- Python `pat in s`: `p` occurs as a contiguous substring of `l`. -/
def containsSub (l p : List Char) : Bool :=
  match l with
  | [] => isPrefixList p []
  | c :: cs => isPrefixList p (c :: cs) || containsSub cs p

/-- Python `s.find(pat)`: index of the first occurrence (`none` models -1). -/
def findSub (l p : List Char) : Option Nat :=
  match l with
  | [] => if isPrefixList p [] then some 0 else none
  | c :: cs => if isPrefixList p (c :: cs) then some 0 else (findSub cs p).map (· + 1)

/-- Python `s.find(pat, start)`. -/
def findFrom (l p : List Char) (start : Nat) : Option Nat :=
  (findSub (l.drop start) p).map (· + start)

/-- Python `s.replace(pat, repl)`: replace all non-overlapping occurrences,
scanning left to right.  Fuelled by the length of the subject; every step
consumes at least one character of the subject (all patterns are nonempty). -/
def replaceAllAux (p r : List Char) : Nat → List Char → List Char
  | 0, l => l
  | _ + 1, [] => []
  | fuel + 1, c :: cs =>
    if isPrefixList p (c :: cs) then r ++ replaceAllAux p r fuel ((c :: cs).drop p.length)
    else c :: replaceAllAux p r fuel cs

def replaceAll (l p r : List Char) : List Char := replaceAllAux p r l.length l

/-- Python `s.strip()`. -/
def trimList (l : List Char) : List Char :=
  ((l.dropWhile isPySpace).reverse.dropWhile isPySpace).reverse

/-- Python `s.lower()` (character-wise ASCII model). -/
def lowerList (l : List Char) : List Char := l.map Char.toLower

/-! String-level wrappers (statements talk about `String`s). -/

def sContains (s pat : String) : Bool := containsSub s.data pat.data
def sReplace (s pat repl : String) : String := ⟨replaceAll s.data pat.data repl.data⟩
def sTrim (s : String) : String := ⟨trimList s.data⟩
def sLower (s : String) : String := ⟨lowerList s.data⟩
def sTake (s : String) (n : Nat) : String := ⟨s.data.take n⟩
def sDrop (s : String) (n : Nat) : String := ⟨s.data.drop n⟩
def sFind (s pat : String) : Option Nat := findSub s.data pat.data
def sFindFrom (s pat : String) (start : Nat) : Option Nat := findFrom s.data pat.data start
def sStartsWith (s pat : String) : Bool := isPrefixList pat.data s.data

/-! ## The `stats count(field)` regular expression of `_fix_query_syntax`

Python pattern: `stats count\(['\"]?([^')]+)['\"]?\)`, replacement
`stats count` (`re.sub`).  After the literal `stats count(`, greedy matching
with the optional quotes is deterministic: an optional opening quote, a
maximal nonempty run of characters other than `'` and `)`, then either `)`
directly or `'` followed by `)`.  The only productive backtracking in the
Python engine is giving back an opening `"` when no body character follows
it, which the first branch below reproduces. -/

def cfClassChar (c : Char) : Bool := !(c = '\'') && !(c = ')')

def cfFinish : List Char → Option (List Char)
  | ')' :: t => some t
  | '\'' :: ')' :: t => some t
  | _ => none

def cfAfterParen : List Char → Option (List Char)
  | [] => none
  | c :: cs =>
    if c = '\'' || c = '"' then
      if (cs.takeWhile cfClassChar).isEmpty then
        if c = '"' then cfFinish cs else none
      else cfFinish (cs.dropWhile cfClassChar)
    else if cfClassChar c then
      cfFinish ((c :: cs).dropWhile cfClassChar)
    else none

def cfTryMatch (l : List Char) : Option (List Char) :=
  if isPrefixList ("stats count(").data l then cfAfterParen (l.drop 12) else none

/-- `re.sub` for the count-field pattern: scan left to right, replace each
match with `stats count`, continue after the match. -/
def cfSubAux : Nat → List Char → List Char
  | 0, l => l
  | _ + 1, [] => []
  | fuel + 1, c :: cs =>
    match cfTryMatch (c :: cs) with
    | some rest => ("stats count").data ++ cfSubAux fuel rest
    | none => c :: cfSubAux fuel cs

/-- `re.search` for the count-field pattern. -/
def hasCFMatch : List Char → Bool
  | [] => false
  | c :: cs => (cfTryMatch (c :: cs)).isSome || hasCFMatch cs

/-! ## LoganClient (logan_client.py) -/

/-- LoganClient._convert_minutes_to_time_unit: thresholds at 60 and 1440 only;
everything from 1440 minutes up is rendered in days.  The identical inline
conversion in `_add_time_filter_with_field` is modelled by the same function. -/
def convertMinutesToTimeUnit (m : Nat) : String :=
  if m < 60 then toString m ++ "m"
  else if m < 1440 then toString (m / 60) ++ "h"
  else toString (m / 1440) ++ "d"

/-- QueryMapper._get_time_filter (query_mapper.py): this variant has the
additional month threshold at 43200 minutes and yields `timefilter(...)`.
Nonpositive minute counts (here: 0) yield `none`. -/
def getTimeFilter (m : Nat) : Option String :=
  if m = 0 then none
  else
    let timeUnit :=
      if m < 60 then toString m ++ "m"
      else if m < 1440 then toString (m / 60) ++ "h"
      else if m < 43200 then toString (m / 1440) ++ "d"
      else toString (m / 43200) ++ "mon"
    some ("timefilter(" ++ timeUnit ++ ")")

/-- LoganClient._has_time_filter. -/
def hasTimeFilter (q : String) : Bool :=
  let ql := sLower q
  sContains ql "where" &&
    (sContains ql "datetime" || sContains ql "time " || sContains ql "timestamp" ||
     sContains ql "daterelative" || sContains ql "timefilter")

/-- LoganClient._should_skip_time_filter. -/
def skipTimeFilterPatterns : List String :=
  ["lookup table", "com.oraclecloud.logging.custom", "eval vol = unit", "geostats",
   "highlightgroups", "classify", "timestats", "link span", "compare timeshift",
   "fields SuricataSignature", "Request Protection Rule IDs"]

def shouldSkipTimeFilter (q : String) : Bool :=
  skipTimeFilterPatterns.any (fun p => sContains q p)

/-- LoganClient._add_time_filter_with_field.  The two branches of the
`" and "/" or "` test in the source build the same string; the `if` is kept
to mirror the source. -/
def addTimeFilterWithField (q : String) (m : Nat) : String :=
  if shouldSkipTimeFilter q then q
  else
    let timeUnit := convertMinutesToTimeUnit m
    let timeFilter := "Time > dateRelative(" ++ timeUnit ++ ")"
    if sTrim q = "*" then
      "* | where " ++ timeFilter ++ " | stats count as logrecords by 'Log Source' | sort -logrecords"
    else if sContains q "|" then
      match sFind q "|" with
      | some p =>
        let beforePipe := sTrim (sTake q p)
        let afterPipe := sTrim (sDrop q p)
        if sContains (sLower beforePipe) " and " || sContains (sLower beforePipe) " or " then
          beforePipe ++ " and " ++ timeFilter ++ " " ++ afterPipe
        else
          beforePipe ++ " and " ++ timeFilter ++ " " ++ afterPipe
      | none => q
    else if sContains (sLower q) " and " || sContains (sLower q) " or " then
      q ++ " and " ++ timeFilter
    else if sStartsWith q "* | stats" then
      "* | where " ++ timeFilter ++ " | " ++ sDrop q 4
    else if sStartsWith q "*" then
      "* | where " ++ timeFilter ++ " | " ++ sTrim (sDrop q 1)
    else
      q ++ " and " ++ timeFilter

/-- LoganClient._fix_query_syntax.  The guarded `re.sub` for the count-field
pattern performs the same substitution in both guard branches (WAF/Suricata
or not), so the model applies the substitution whenever the pattern matches. -/
def fixQuerySyntax (q : String) : String :=
  let q1 := sReplace q "Action in (drop, reject)" "Action in ('drop', 'reject')"
  let q2 := sReplace (sReplace q1 "!= null" "!= \"\"") "is not null" "!= \"\""
  let q3 := sReplace q2 "stats count(*)" "stats count"
  let q4 :=
    if sContains q3 "WAF" && sContains q3 "count('Host IP Address (Client)')" then
      sReplace q3 "count('Host IP Address (Client)')" "count"
    else q3
  let q5 := if hasCFMatch q4.data then (⟨cfSubAux q4.data.length q4.data⟩ : String) else q4
  let q6 := sReplace q5 "'Event ID'" "'Event Type'"
  let q7 := sReplace q6 "| top 10 Count" "| sort -Count | head 10"
  if sContains q7 "| lookup" && !(sContains q7 "WAF") && !(sContains q7 "Suricata") then
    match sFind q7 "| lookup" with
    | some p => if p > 0 then sTrim (sTake q7 p) else q7
    | none => q7
  else q7

/-- The Time Filter Injector as run by `execute_query`: inject only when a
nonzero minute count is given and `_has_time_filter` does not already hold. -/
def injectTimeFilter (q : String) (m : Nat) : String :=
  if m != 0 && !(hasTimeFilter q) then addTimeFilterWithField q m else q

/-- The query string submitted on the primary execution path of
`execute_query`: syntax fixes, then conditional time-filter injection. -/
def primaryQueryString (q : String) (m : Nat) : String :=
  injectTimeFilter (fixQuerySyntax q) m

/-! ## Execution with fallback (`execute_query` / `_execute_query_fallback`)

The backend query API is an external collaborator; it is modelled as a
deterministic oracle from the submitted query string to either a structured
service error or a response.  `ExecResult` records the externally visible
outcome fields set by `execute_query` plus `fallbackAttempts`, the number of
times the fallback tier submitted a query during the call. -/

structure BackendErr where
  code : String
  message : String
deriving DecidableEq

structure BackendResp where
  items : List String
  totalCount : Nat
deriving DecidableEq, Inhabited

structure ExecResult where
  success : Bool
  errMsg : Option String
  queryUsed : Option String
  fallbackUsed : Bool
  fallbackAttempts : Nat
deriving DecidableEq

/-- The query string submitted by `_execute_query_fallback`: re-run the
syntax fixes on the original input, then drop a `sort` stage when both a
`stats` and a `sort` stage are present (and the `sort` is not at index 0);
no time filter is added. -/
def fallbackQueryOf (originalQuery : String) : String :=
  let q := fixQuerySyntax originalQuery
  if sContains q "| stats" && sContains q "| sort" then
    match sFind q "| sort" with
    | some p => if p > 0 then sTrim (sTake q p) else q
    | none => q
  else q

/-- LoganClient._execute_query_fallback. -/
def executeQueryFallback (backend : String → Except BackendErr BackendResp)
    (originalQuery : String) : ExecResult :=
  let fq := fallbackQueryOf originalQuery
  match backend fq with
  | .ok _ => ⟨true, none, some fq, true, 1⟩
  | .error e => ⟨false, some ("OCI Service Error: " ++ e.message), none, false, 1⟩

/-- LoganClient.execute_query.  When the minute count is nonzero and the
fixed query has no time filter yet, the time-filtered query is submitted and
a service error diverts to the fallback tier (passing the *original* query);
otherwise the fixed query is submitted directly and a service error is
terminal with no fallback. -/
def executeQuery (backend : String → Except BackendErr BackendResp)
    (q : String) (m : Nat) : ExecResult :=
  let fixedq := fixQuerySyntax q
  if m != 0 && !(hasTimeFilter fixedq) then
    let tq := addTimeFilterWithField fixedq m
    match backend tq with
    | .ok _ => ⟨true, none, some tq, false, 0⟩
    | .error _ => executeQueryFallback backend q
  else
    match backend fixedq with
    | .ok _ => ⟨true, none, some fixedq, false, 0⟩
    | .error e => ⟨false, some ("OCI Service Error: " ++ e.message), none, false, 0⟩

/-! ## Console-equivalent mode (`execute_query_like_console`)

Both branches of `bypass_all_processing` apply the same null-comparison
replacements followed by the regex-driven `field != value` rewrite.  The
regex `(\w+)\s*!=\s*([^\s|]+)` is matched greedily; greedy matching is
deterministic for this pattern.  `re.findall` collects all non-overlapping
matches of the post-replacement string, then the loop replaces
`f"{field} != {value}"` (with single spaces) by `f"{field} != \"\""` for
every pair whose value is not `null`, mutating the string left to right. -/

def neqValueChar (c : Char) : Bool := !(isPySpace c) && !(c = '|')

def neqTryMatch (l : List Char) : Option (List Char × List Char × List Char) :=
  let f := l.takeWhile isWordChar
  if f.isEmpty then none
  else
    match (l.dropWhile isWordChar).dropWhile isPySpace with
    | '!' :: '=' :: t3 =>
      let t4 := t3.dropWhile isPySpace
      let v := t4.takeWhile neqValueChar
      if v.isEmpty then none else some (f, v, t4.dropWhile neqValueChar)
    | _ => none

def findallNeqAux : Nat → List Char → List (List Char × List Char)
  | 0, _ => []
  | _ + 1, [] => []
  | fuel + 1, c :: cs =>
    match neqTryMatch (c :: cs) with
    | some (f, v, rest) => (f, v) :: findallNeqAux fuel rest
    | none => findallNeqAux fuel cs

def applyNeqFixes (s : String) (ms : List (List Char × List Char)) : String :=
  ms.foldl (fun acc fv =>
    if fv.2 = ("null").data then acc
    else sReplace acc ⟨fv.1 ++ (" != ").data ++ fv.2⟩ ⟨fv.1 ++ (" != \"\"").data⟩) s

/-- The query-string computation of the `bypass_all_processing=True` branch. -/
def consoleFixBypass (q : String) : String :=
  let s1 := sReplace (sReplace q "!= null" "!= \"\"") "is not null" "!= \"\""
  applyNeqFixes s1 (findallNeqAux s1.data.length s1.data)

/-- The query-string computation of the `bypass_all_processing=False` branch. -/
def consoleFixNormal (q : String) : String :=
  let s1 := sReplace (sReplace q "!= null" "!= \"\"") "is not null" "!= \"\""
  applyNeqFixes s1 (findallNeqAux s1.data.length s1.data)

/-- The outgoing query string of console-equivalent mode as a function of the
`bypass_all_processing` flag. -/
def consoleQueryString (bypassAllProcessing : Bool) (q : String) : String :=
  if bypassAllProcessing then consoleFixBypass q else consoleFixNormal q

/-! ## QueryValidator (query_validator.py) -/

/-- The `top N Count` regex of `_fix_basic_syntax`:
`\|\s*top\s+(\d+)\s+Count`, replacement `| sort -Count | head \1`.
Greedy matching is deterministic for this pattern. -/
def topTryMatch (l : List Char) : Option (List Char × List Char) :=
  match l with
  | '|' :: t =>
    let t1 := t.dropWhile isPySpace
    if isPrefixList ("top").data t1 then
      let t2 := t1.drop 3
      if (t2.takeWhile isPySpace).isEmpty then none
      else
        let t3 := t2.dropWhile isPySpace
        let ds := t3.takeWhile Char.isDigit
        if ds.isEmpty then none
        else
          let t4 := t3.dropWhile Char.isDigit
          if (t4.takeWhile isPySpace).isEmpty then none
          else
            let t5 := t4.dropWhile isPySpace
            if isPrefixList ("Count").data t5 then some (ds, t5.drop 5) else none
    else none
  | _ => none

def topSubAux : Nat → List Char → List Char
  | 0, l => l
  | _ + 1, [] => []
  | fuel + 1, c :: cs =>
    match topTryMatch (c :: cs) with
    | some (ds, rest) => ("| sort -Count | head ").data ++ ds ++ topSubAux fuel rest
    | none => c :: topSubAux fuel cs

/-- QueryValidator preserve list (`_should_preserve_query`). -/
def preservePatterns : List String :=
  ["lookup table", "com.oraclecloud.logging.custom", "rename", "eval vol = unit",
   "geostats", "highlightgroups", "classify", "timestats", "link span",
   "'Web Application Firewall", "compare timeshift", "OCI WAF Logs",
   "Request Protection Rule IDs", "Host IP Address (Client)", "Suricata",
   "Windows Sysmon", "User Agent", "Response Code"]

def shouldPreserveQuery (q : String) : Bool :=
  preservePatterns.any (fun p => sContains q p)

/-- QueryValidator._fix_basic_syntax. -/
def fixBasicSyntax (q : String) : String :=
  let q1 := sReplace (sReplace q "!= null" "is not null") "== null" "is null"
  let q2 := sReplace (sReplace q1 "(drop, reject)" "('drop', 'reject')")
      "(accept, allow)" "('accept', 'allow')"
  let q3 := sReplace (sReplace (sReplace q2
      "| top 10 Count" "| sort -Count | head 10")
      "| top 5 Count" "| sort -Count | head 5")
      "| top Count" "| sort -Count | head 10"
  let q4 : String := ⟨topSubAux q3.data.length q3.data⟩
  let q5 :=
    if sContains q4 "| rename " then
      match sFind q4 "| rename " with
      | some rp =>
        match sFindFrom q4 " | " (rp + 1) with
        | some pa => if pa > 0 then sTake q4 rp ++ " " ++ sDrop q4 pa else sTrim (sTake q4 rp)
        | none => sTrim (sTake q4 rp)
      | none => q4
    else q4
  if sContains (sLower q5) "| search " then
    match sFind (sLower q5) "| search " with
    | some sp => sTrim (sTake q5 sp)
    | none => q5
  else q5

/-- QueryValidator._fix_log_sources. -/
def fixLogSources (q : String) : String :=
  let q1 :=
    if sContains q "'Linux Audit Logs'" then
      sReplace q "'Linux Audit Logs'" "'OCI Audit Logs'"
    else q
  if sContains q1 "'Network Security Events'" then
    sReplace q1 "'Network Security Events'" "'OCI VCN Flow Unified Schema Logs'"
  else q1

/-- QueryValidator._fix_field_references (insertion-ordered map). -/
def fieldReferenceMap : List (String × String) :=
  [("'Event ID'", "'Event Type'"), ("'Event Name'", "'Event Name'"),
   ("'Host IP Address (Client)'", "'Source IP'"),
   ("'Request Protection Rule IDs'", "'Event Type'"),
   ("'User Name'", "'Principal Name'"), ("'Computer Name'", "'Compartment Name'"),
   ("'Source IP'", "SourceIP"), ("'Source Port'", "SourcePort"),
   ("'Destination IP'", "DestinationIP"), ("'Destination Port'", "DestinationPort"),
   ("'Log Source'", "'Log Source'"), ("'Content Size Out'", "'Content Size Out'")]

def fixFieldReferences (q : String) : String :=
  fieldReferenceMap.foldl (fun s pr => sReplace s pr.1 pr.2) q

/-- QueryValidator._minimal_query_fixes. -/
def minimalQueryFixes (q : String) : String :=
  let q1 := sReplace (sReplace q "!= null" "is not null") "== null" "is null"
  sReplace (sReplace q1 "(drop, reject)" "('drop', 'reject')")
    "(accept, allow)" "('accept', 'allow')"

/-- The `stats count by '[^']*'` regex of `_simplify_complex_operations`
(`re.search` only). -/
def scbTryMatch (l : List Char) : Option (List Char) :=
  if isPrefixList ("stats count by '").data l then
    match (l.drop 16).dropWhile (fun c => !(c = '\'')) with
    | '\'' :: r => some r
    | _ => none
  else none

def hasSCBMatch : List Char → Bool
  | [] => false
  | c :: cs => (scbTryMatch (c :: cs)).isSome || hasSCBMatch cs

/-- QueryValidator._simplify_complex_operations.  The inner loop over
problematic fields breaks after the first replacement. -/
def simplifyComplexOperations (q : String) : String :=
  if sContains q "WAF" || sContains q "Suricata" || sContains q "lookup table" ||
     sContains q "com.oraclecloud.logging.custom" then
    minimalQueryFixes q
  else
    let q1 :=
      if sContains q "OCI VCN Flow" && sContains q "stats count by" then
        if hasSCBMatch q.data then
          if sContains q "stats count by 'Source IP'" then
            sReplace q "stats count by 'Source IP'" "stats count by Action"
          else if sContains q "stats count by 'Destination IP'" then
            sReplace q "stats count by 'Destination IP'" "stats count by Action"
          else if sContains q "stats count by 'Log Source'" then
            sReplace q "stats count by 'Log Source'" "stats count by Action"
          else q
        else q
      else q
    if sContains q1 "| lookup" && !(sContains q1 "WAF") && !(sContains q1 "MITRE") then
      match sFind q1 "| lookup" with
      | some p => if p > 0 then sTrim (sTake q1 p) else q1
      | none => q1
    else q1

structure ValidationResult where
  isValid : Bool
  warnings : List String
deriving DecidableEq

structure NormalizationResult where
  success : Bool
  originalQuery : String
  fixedQuery : String
  validationResult : ValidationResult
  warnings : List String
deriving DecidableEq

def availableLogSources : List String :=
  ["OCI Audit Logs", "OCI VCN Flow Unified Schema Logs"]

/-- QueryValidator._validate_final_query. -/
def validateFinalQuery (q : String) : ValidationResult :=
  let w1 : List String :=
    if availableLogSources.any (fun s => sContains q s) then []
    else ["Query may not reference available log sources"]
  let w2 : List String :=
    if sContains (sLower q) "stats count by" && sContains q "'" then
      ["Stats operations with quoted field names may cause parsing issues"]
    else []
  let w3 : List String :=
    if sContains q "dateRelative" then
      ["dateRelative function may cause 'Missing input' errors"]
    else []
  let ws := w1 ++ w2 ++ w3
  ⟨ws.isEmpty, ws⟩

def preservedWarning : String := "Query preserved as-is due to complexity"

/-- A backend oracle that rejects every submitted query. -/
def alwaysRejectBackend : String → Except BackendErr BackendResp :=
  fun _ => .error ⟨"InvalidParameter", "syntax error"⟩

/-- A backend oracle that accepts exactly one query string. -/
def selectiveBackend : String → Except BackendErr BackendResp :=
  fun s => if s = "abc | head 2" then .ok ⟨[], 0⟩ else .error ⟨"InvalidParameter", "bad syntax"⟩

/-- QueryValidator.validate_and_fix_query (success path; the `except` branch
is unreachable for the total string model). -/
def validateAndFixQuery (q : String) : NormalizationResult :=
  if shouldPreserveQuery q then
    ⟨true, q, q, ⟨true, [preservedWarning]⟩, [preservedWarning]⟩
  else
    let f1 := fixBasicSyntax q
    let f2 := fixLogSources f1
    let f3 := fixFieldReferences f2
    let f4 := simplifyComplexOperations f3
    let vr := validateFinalQuery f4
    ⟨true, q, f4, vr, vr.warnings⟩

/-! ## Helper lemmas -/

theorem replaceAllAux_of_not_contains (p r : List Char) :
    ∀ (l : List Char) (fuel : Nat), containsSub l p = false → replaceAllAux p r fuel l = l := by
  intro l
  induction l with
  | nil => intro fuel _; cases fuel <;> rfl
  | cons c cs ih =>
    intro fuel h
    cases fuel with
    | zero => rfl
    | succ f =>
      have h' : (isPrefixList p (c :: cs) || containsSub cs p) = false := h
      rw [Bool.or_eq_false_iff] at h'
      simp only [replaceAllAux, h'.1, Bool.false_eq_true, if_false, ih f h'.2]

/-- A replacement whose pattern does not occur leaves the string unchanged. -/
theorem sReplace_of_not_contains (s p r : String) (h : sContains s p = false) :
    sReplace s p r = s := by
  unfold sReplace replaceAll
  rw [replaceAllAux_of_not_contains p.data r.data s.data s.data.length h]

/-- `isPrefixList` is the usual list-prefix relation. -/
theorem isPrefixList_iff (p : List Char) :
    ∀ l : List Char, isPrefixList p l = true ↔ ∃ t, l = p ++ t := by
  induction p with
  | nil => intro l; simp [isPrefixList]
  | cons c cs ih =>
    intro l
    cases l with
    | nil => simp [isPrefixList]
    | cons d l' =>
      simp only [isPrefixList, Bool.and_eq_true, decide_eq_true_eq, ih, List.cons_append,
        List.cons.injEq]
      constructor
      · rintro ⟨h1, t, h2⟩
        exact ⟨t, h1.symm, h2⟩
      · rintro ⟨t, h1, h2⟩
        exact ⟨h1.symm, t, h2⟩

/-- `containsSub` is the substring (contiguous-infix) relation. -/
theorem containsSub_iff (l p : List Char) :
    containsSub l p = true ↔ ∃ a b, l = a ++ p ++ b := by
  induction l with
  | nil =>
    simp only [containsSub, isPrefixList_iff]
    constructor
    · rintro ⟨t, ht⟩
      exact ⟨[], t, by simpa using ht⟩
    · rintro ⟨a, b, hab⟩
      rcases List.append_eq_nil.mp hab.symm with ⟨hap, hb⟩
      rcases List.append_eq_nil.mp hap with ⟨ha, hp⟩
      exact ⟨[], by simp [hp]⟩
  | cons c cs ih =>
    simp only [containsSub, Bool.or_eq_true, isPrefixList_iff, ih]
    constructor
    · rintro (⟨t, ht⟩ | ⟨a, b, hab⟩)
      · exact ⟨[], t, by simpa using ht⟩
      · exact ⟨c :: a, b, by simp [hab]⟩
    · rintro ⟨a, b, hab⟩
      cases a with
      | nil => exact Or.inl ⟨b, by simpa using hab⟩
      | cons x a' =>
        rw [List.cons_append, List.cons_append] at hab
        injection hab with h1 h2
        exact Or.inr ⟨a', b, by simpa using h2⟩

/-- Every character of an occurring pattern occurs in subject. -/
theorem mem_of_containsSub (l p : List Char) (h : containsSub l p = true) :
    ∀ c, c ∈ p → c ∈ l := by
  obtain ⟨a, b, rfl⟩ := (containsSub_iff l p).mp h
  intro c hc
  simp [hc]

theorem not_containsSub_of_not_mem (l p : List Char) (c : Char)
    (hcp : c ∈ p) (hcl : c ∉ l) : containsSub l p = false := by
  cases hb : containsSub l p with
  | false => rfl
  | true => exact absurd (mem_of_containsSub l p hb c hcp) hcl

theorem toLower_of_isDigit (c : Char) (h : c.isDigit = true) : c.toLower = c := by
  unfold Char.isDigit at h
  rw [Bool.and_eq_true, decide_eq_true_eq, decide_eq_true_eq] at h
  unfold Char.toLower
  rw [if_neg]
  intro hc
  have h2 : c.val.toNat ≤ (57 : UInt32).toNat := h.2
  have h3 : (57 : UInt32).toNat = 57 := rfl
  have h4 : c.toNat = c.val.toNat := rfl
  omega

theorem isPySpace_eq_false_of_isDigit (c : Char) (h : c.isDigit = true) :
    isPySpace c = false := by
  cases hsp : isPySpace c with
  | false => rfl
  | true =>
    exfalso
    unfold isPySpace at hsp
    simp only [Bool.or_eq_true, decide_eq_true_eq] at hsp
    rcases hsp with ((((h1 | h1) | h1) | h1) | h1) | h1 <;>
      (subst h1; exact absurd h (by decide))

theorem takeWhile_append_of_all (p : Char → Bool) :
    ∀ (xs ys : List Char), xs.all p = true →
      (xs ++ ys).takeWhile p = xs ++ ys.takeWhile p := by
  intro xs ys
  induction xs with
  | nil => intro _; simp
  | cons x xs' ih =>
    intro h
    rw [List.all_cons, Bool.and_eq_true] at h
    simp [List.takeWhile_cons, h.1, ih h.2]

theorem takeWhile_append_of_not_all (p : Char → Bool) :
    ∀ (xs ys : List Char), xs.all p = false →
      (xs ++ ys).takeWhile p = xs.takeWhile p := by
  intro xs ys
  induction xs with
  | nil => intro h; exact absurd h (by simp)
  | cons x xs' ih =>
    intro h
    rw [List.all_cons] at h
    cases hx : p x with
    | false => simp [List.takeWhile_cons, hx]
    | true =>
      rw [hx, Bool.true_and] at h
      simp [List.takeWhile_cons, hx, ih h]

theorem dropWhile_append_of_all (p : Char → Bool) :
    ∀ (xs ys : List Char), xs.all p = true →
      (xs ++ ys).dropWhile p = ys.dropWhile p := by
  intro xs ys
  induction xs with
  | nil => intro _; simp
  | cons x xs' ih =>
    intro h
    rw [List.all_cons, Bool.and_eq_true] at h
    simp [List.dropWhile_cons, h.1, ih h.2]

/-- Splitting a list at a character that occurs in neither part pins down the
decomposition: an occurrence-based split at that character is unique. -/
theorem split_at_unique_mem (ch : Char) :
    ∀ (xs a rest d : List Char), ch ∉ xs → ch ∉ rest →
      xs ++ ch :: rest = a ++ ch :: d → a = xs ∧ d = rest := by
  intro xs
  induction xs with
  | nil =>
    intro a rest d _ hrest heq
    cases a with
    | nil =>
      rw [List.nil_append, List.nil_append] at heq
      injection heq with _ h2
      exact ⟨rfl, h2.symm⟩
    | cons a0 a' =>
      rw [List.nil_append, List.cons_append] at heq
      injection heq with _ h2
      exfalso
      apply hrest
      rw [h2]
      simp
  | cons x xs' ih =>
    intro a rest d hxs hrest heq
    cases a with
    | nil =>
      rw [List.cons_append, List.nil_append] at heq
      injection heq with h1 _
      subst h1
      exact absurd (List.mem_cons_self x xs') hxs
    | cons a0 a' =>
      rw [List.cons_append, List.cons_append] at heq
      injection heq with h1 h2
      have hxs' : ch ∉ xs' := fun hm => hxs (List.mem_cons_of_mem _ hm)
      obtain ⟨ha, hd⟩ := ih a' rest d hxs' hrest h2
      exact ⟨by rw [← h1, ha], hd⟩

/-- A pattern whose last character is not a digit cannot be a prefix that
reaches into an all-digit suffix. -/
theorem isPrefixList_append_digits (ds : List Char)
    (hds : ∀ c ∈ ds, c.isDigit = true) :
    ∀ (p ys : List Char), (∀ c, p.getLast? = some c → c.isDigit = false) →
      isPrefixList p (ys ++ ds) = true → isPrefixList p ys = true := by
  intro p
  induction p with
  | nil => intro ys _ _; rfl
  | cons c cs ih =>
    intro ys hlast h
    cases ys with
    | nil =>
      exfalso
      rw [List.nil_append] at h
      obtain ⟨t, ht⟩ := (isPrefixList_iff _ _).mp h
      have hmem : (c :: cs).getLast (List.cons_ne_nil c cs) ∈ ds := by
        rw [ht]
        exact List.mem_append.mpr (Or.inl (List.getLast_mem _))
      have hdm := hds _ hmem
      have hl := hlast _ (List.getLast?_eq_getLast _ (List.cons_ne_nil c cs))
      rw [hdm] at hl
      cases hl
    | cons y ys' =>
      have h' : (decide (c = y) && isPrefixList cs (ys' ++ ds)) = true := h
      rw [Bool.and_eq_true] at h'
      show (decide (c = y) && isPrefixList cs ys') = true
      rw [Bool.and_eq_true]
      refine ⟨h'.1, ?_⟩
      cases hcs : cs with
      | nil => rfl
      | cons c2 cs2 =>
        subst hcs
        apply ih ys'
        · intro ch hch
          apply hlast
          rw [List.getLast?_cons_cons]
          exact hch
        · exact h'.2

/-- A pattern whose last character is not a digit cannot occur across the
boundary into an all-digit suffix: any occurrence lies in the prefix. -/
theorem containsSub_append_digits (ds p : List Char)
    (hds : ∀ c ∈ ds, c.isDigit = true)
    (hlast : ∀ c, p.getLast? = some c → c.isDigit = false) :
    ∀ xs, containsSub (xs ++ ds) p = true → containsSub xs p = true := by
  intro xs
  induction xs with
  | nil =>
    intro h
    rw [List.nil_append] at h
    cases p with
    | nil => rfl
    | cons c cs =>
      exfalso
      have hgl := List.getLast?_eq_getLast (c :: cs) (List.cons_ne_nil c cs)
      have hmem : (c :: cs).getLast (List.cons_ne_nil c cs) ∈ ds :=
        mem_of_containsSub ds (c :: cs) h _ (List.getLast_mem _)
      have hdm := hds _ hmem
      have hl := hlast _ hgl
      rw [hdm] at hl
      cases hl
  | cons x xs' ih =>
    intro h
    have h' : (isPrefixList p (x :: (xs' ++ ds)) || containsSub (xs' ++ ds) p) = true := h
    rw [Bool.or_eq_true] at h'
    show (isPrefixList p (x :: xs') || containsSub xs' p) = true
    rw [Bool.or_eq_true]
    rcases h' with hpre | hrest
    · exact Or.inl (isPrefixList_append_digits ds hds p (x :: xs') hlast hpre)
    · exact Or.inr (ih hrest)

theorem topSubAux_nil (f : Nat) : topSubAux f [] = [] := by cases f <;> rfl

theorem topSubAux_cons_none (c : Char) (cs : List Char) (f : Nat)
    (h : topTryMatch (c :: cs) = none) :
    topSubAux (f + 1) (c :: cs) = c :: topSubAux f cs := by
  simp [topSubAux, h]

theorem topSubAux_cons_some (c : Char) (cs nds rest : List Char) (f : Nat)
    (h : topTryMatch (c :: cs) = some (nds, rest)) :
    topSubAux (f + 1) (c :: cs) =
      ("| sort -Count | head ").data ++ nds ++ topSubAux f rest := by
  simp [topSubAux, h]

/-- Running the `top N Count` matcher at the pipe of `* | top N Count`. -/
theorem topTryMatch_run (d : Char) (ds' : List Char)
    (hd : d.isDigit = true) (hds' : ds'.all Char.isDigit = true) :
    topTryMatch ('|' :: ' ' :: 't' :: 'o' :: 'p' :: ' ' :: ((d :: ds') ++ (" Count").data)) =
      some (d :: ds', []) := by
  have hspd : isPySpace d = false := isPySpace_eq_false_of_isDigit d hd
  have hall : (d :: ds').all Char.isDigit = true := by
    rw [List.all_cons, hd, Bool.true_and]; exact hds'
  have htake : List.takeWhile Char.isDigit ((d :: ds') ++ (" Count").data) = d :: ds' := by
    rw [takeWhile_append_of_all Char.isDigit (d :: ds') ((" Count").data) hall,
        show List.takeWhile Char.isDigit ((" Count").data) = [] from rfl, List.append_nil]
  have hdrop : List.dropWhile Char.isDigit ((d :: ds') ++ (" Count").data) = (" Count").data :=
    dropWhile_append_of_all Char.isDigit (d :: ds') ((" Count").data) hall
  have htake' : List.takeWhile Char.isDigit (d :: (ds' ++ [' ', 'C', 'o', 'u', 'n', 't'])) =
      d :: ds' := htake
  have hdrop' : List.dropWhile Char.isDigit (d :: (ds' ++ [' ', 'C', 'o', 'u', 'n', 't'])) =
      [' ', 'C', 'o', 'u', 'n', 't'] := hdrop
  have ht3' : List.dropWhile isPySpace (d :: (ds' ++ [' ', 'C', 'o', 'u', 'n', 't'])) =
      d :: (ds' ++ [' ', 'C', 'o', 'u', 'n', 't']) := by
    rw [List.dropWhile_cons, hspd]
    simp
  have hfA : ∀ R : List Char,
      List.dropWhile isPySpace (' ' :: R) = List.dropWhile isPySpace R := fun _ => rfl
  have hfB : ∀ R : List Char, List.dropWhile isPySpace ('t' :: R) = 't' :: R := fun _ => rfl
  have hfC : ∀ R : List Char,
      isPrefixList ['t', 'o', 'p'] ('t' :: 'o' :: 'p' :: R) = true := fun _ => rfl
  have hfD : ∀ R : List Char, 3 < ('t' :: 'o' :: 'p' :: ' ' :: R).length := by
    intro R
    simp [List.length_cons]
  have hfE : ∀ R : List Char, List.drop 3 ('t' :: 'o' :: 'p' :: R) = R := fun _ => rfl
  unfold topTryMatch
  simp [hfA, hfB, hfC, hfD, hfE, ht3', htake', hdrop', hd,
    show isPySpace ' ' = true from rfl,
    show List.dropWhile isPySpace [' ', 'C', 'o', 'u', 'n', 't'] = ['C', 'o', 'u', 'n', 't'] from rfl,
    show List.dropWhile isPySpace ['C', 'o', 'u', 'n', 't'] = ['C', 'o', 'u', 'n', 't'] from rfl,
    show isPrefixList ['C', 'o', 'u', 'n', 't'] ['C', 'o', 'u', 'n', 't'] = true from rfl]

/-- Running the `re.sub` scanner over the whole `* | top N Count` query. -/
theorem topSubAux_run (f : Nat) (d : Char) (ds' : List Char)
    (hd : d.isDigit = true) (hds' : ds'.all Char.isDigit = true) :
    topSubAux (f + 3) (("* | top ").data ++ (d :: ds') ++ (" Count").data) =
      ("* ").data ++ (("| sort -Count | head ").data ++ (d :: ds')) := by
  have hm := topTryMatch_run d ds' hd hds'
  show topSubAux (f + 2 + 1)
      ('*' :: ' ' :: '|' :: ' ' :: 't' :: 'o' :: 'p' :: ' ' :: ((d :: ds') ++ (" Count").data)) = _
  rw [topSubAux_cons_none '*'
      (' ' :: '|' :: ' ' :: 't' :: 'o' :: 'p' :: ' ' :: ((d :: ds') ++ (" Count").data))
      (f + 2) rfl]
  show '*' :: topSubAux (f + 1 + 1)
      (' ' :: '|' :: ' ' :: 't' :: 'o' :: 'p' :: ' ' :: ((d :: ds') ++ (" Count").data)) = _
  rw [topSubAux_cons_none ' '
      ('|' :: ' ' :: 't' :: 'o' :: 'p' :: ' ' :: ((d :: ds') ++ (" Count").data))
      (f + 1) rfl]
  show '*' :: ' ' :: topSubAux (f + 1)
      ('|' :: ' ' :: 't' :: 'o' :: 'p' :: ' ' :: ((d :: ds') ++ (" Count").data)) = _
  rw [topSubAux_cons_some '|'
      (' ' :: 't' :: 'o' :: 'p' :: ' ' :: ((d :: ds') ++ (" Count").data))
      (d :: ds') [] f hm, topSubAux_nil f, List.append_nil]
  rfl

/-- Staging lemma for `_fix_basic_syntax`: when none of the literal rewrite
patterns occur, the result is the `top N Count` regex substitution, provided
the rename and search removal stages do not fire on it. -/
theorem fixBasicSyntax_via (q r : String)
    (e1 : sContains q "!= null" = false)
    (e2 : sContains q "== null" = false)
    (e3 : sContains q "(drop, reject)" = false)
    (e4 : sContains q "(accept, allow)" = false)
    (e5 : sContains q "| top 10 Count" = false)
    (e6 : sContains q "| top 5 Count" = false)
    (e7 : sContains q "| top Count" = false)
    (hsub : (⟨topSubAux q.data.length q.data⟩ : String) = r)
    (hren : sContains r "| rename " = false)
    (hsrch : sContains (sLower r) "| search " = false) :
    fixBasicSyntax q = r := by
  simp only [fixBasicSyntax]
  rw [sReplace_of_not_contains _ _ _ e1, sReplace_of_not_contains _ _ _ e2,
      sReplace_of_not_contains _ _ _ e3, sReplace_of_not_contains _ _ _ e4,
      sReplace_of_not_contains _ _ _ e5, sReplace_of_not_contains _ _ _ e6,
      sReplace_of_not_contains _ _ _ e7, hsub]
  rw [hren]
  simp only [Bool.false_eq_true, if_false]
  rw [hsrch]
  simp only [Bool.false_eq_true, if_false]

/-- The preservation branch of `validate_and_fix_query`. -/
theorem validateAndFixQuery_preserved (q : String) (h : shouldPreserveQuery q = true) :
    validateAndFixQuery q =
      ⟨true, q, q, ⟨true, [preservedWarning]⟩, [preservedWarning]⟩ := by
  unfold validateAndFixQuery
  rw [h]
  simp

/-- Queries mentioning `rename` anywhere match the preserve list. -/
theorem shouldPreserve_of_rename (q : String) (h : sContains q "rename" = true) :
    shouldPreserveQuery q = true := by
  simp only [shouldPreserveQuery, preservePatterns, List.any_cons, List.any_nil, h,
    Bool.or_true, Bool.true_or, Bool.or_false]

/-! ## Claims -/

/-- C1: every query containing one of the static preservation markers is
returned by `validate_and_fix_query` as a success whose fixed query is the
original query verbatim, with no later rewrite stage applied and with the
"preserved due to complexity" warning annotation. -/
theorem c1_preservation (q : String) (h : shouldPreserveQuery q = true) :
    validateAndFixQuery q =
      ⟨true, q, q, ⟨true, [preservedWarning]⟩, [preservedWarning]⟩ :=
  validateAndFixQuery_preserved q h

theorem c1_preservation_witness :
    validateAndFixQuery "timestats" =
      ⟨true, "timestats", "timestats", ⟨true, [preservedWarning]⟩, [preservedWarning]⟩ :=
  c1_preservation "timestats" (by decide)

/-- C2: for every query that `_has_time_filter` classifies as already
time-filtered and every minute count, the conditional time-filter injection
of `execute_query` returns the query unchanged, so no second relative time
clause is introduced. -/
theorem c2_no_double_injection (q : String) (m : Nat) (h : hasTimeFilter q = true) :
    injectTimeFilter q m = q := by
  unfold injectTimeFilter
  rw [h]
  simp

theorem c2_no_double_injection_witness :
    injectTimeFilter "* | where Time > dateRelative(1h)" 60 =
      "* | where Time > dateRelative(1h)" :=
  c2_no_double_injection "* | where Time > dateRelative(1h)" 60 (by decide)

/-- C3 counterexample: the conversion used by the Time Filter Injector
(`_convert_minutes_to_time_unit` and the identical inline code in
`_add_time_filter_with_field`) maps 43200 minutes to the day unit "30d";
it has no month unit at all, contradicting the claimed 43200 → months
threshold. -/
theorem c3_counterexample :
    convertMinutesToTimeUnit 43200 = "30d" ∧
    sContains (convertMinutesToTimeUnit 43200) "mon" = false := by
  constructor <;> rfl

/-- C3 amended: the injector's conversion has thresholds at 60 and 1440
only, mapping 59/60/1439/1440/43199/43200 to 59m/1h/23h/1d/29d/30d; the
month threshold at 43200 exists only in `QueryMapper._get_time_filter`,
which maps 43199 to 29d and 43200 to 1mon. -/
theorem c3_amended_units :
    convertMinutesToTimeUnit 59 = "59m" ∧ convertMinutesToTimeUnit 60 = "1h" ∧
    convertMinutesToTimeUnit 1439 = "23h" ∧ convertMinutesToTimeUnit 1440 = "1d" ∧
    convertMinutesToTimeUnit 43199 = "29d" ∧ convertMinutesToTimeUnit 43200 = "30d" ∧
    getTimeFilter 59 = some "timefilter(59m)" ∧ getTimeFilter 60 = some "timefilter(1h)" ∧
    getTimeFilter 1439 = some "timefilter(23h)" ∧ getTimeFilter 1440 = some "timefilter(1d)" ∧
    getTimeFilter 43199 = some "timefilter(29d)" ∧ getTimeFilter 43200 = some "timefilter(1mon)" :=
  ⟨rfl, rfl, rfl, rfl, rfl, rfl, rfl, rfl, rfl, rfl, rfl, rfl⟩

/-- C4 counterexample: on input `"* | stats count(*)"` with a 60-minute
window the primary pipeline does not produce a `| where` stage at all: the
pipe-splitting branch of `_add_time_filter_with_field` runs before the
stats-shorthand branch, conjoining the time clause onto the leading
wildcard with `and`, and 60 minutes renders as `1h`, not `60m`. -/
theorem c4_counterexample :
    primaryQueryString "* | stats count(*)" 60 =
      "* and Time > dateRelative(1h) | stats count" ∧
    sContains (primaryQueryString "* | stats count(*)" 60) "| where" = false ∧
    sContains (primaryQueryString "* | stats count(*)" 60) "60m" = false := by
  refine ⟨by decide, by decide, by decide⟩

/-- C4 amended: on input `"* | stats count(*)"` with a 60-minute window the
pipeline flattens `count(*)` to bare `count` and conjoins the time clause
`Time > dateRelative(1h)` onto the leading wildcard filter with `and`
(the `* | stats` where-stage branch is unreachable because any such query
contains a pipe), producing a query different from the input. -/
theorem c4_amended :
    primaryQueryString "* | stats count(*)" 60 =
      "* and Time > dateRelative(1h) | stats count" ∧
    primaryQueryString "* | stats count(*)" 60 ≠ "* | stats count(*)" := by
  refine ⟨by decide, by decide⟩

/-- C6 counterexample: the syntax normalizers do not rewrite an inequality
against a bare non-null identifier: `"fieldX != someLiteral"` passes through
both `_fix_query_syntax` and `_fix_basic_syntax` unchanged, and the input
contains no quoted empty string, so the output does not compare `fieldX`
against a quoted empty string. -/
theorem c6_counterexample :
    fixQuerySyntax "fieldX != someLiteral" = "fieldX != someLiteral" ∧
    fixBasicSyntax "fieldX != someLiteral" = "fieldX != someLiteral" ∧
    sContains "fieldX != someLiteral" "\"\"" = false := by
  refine ⟨by decide, by decide, by decide⟩

/-- C6 amended: `_fix_query_syntax` collapses `!= null` and `is not null`
to a quoted-empty-string comparison, while `_fix_basic_syntax` instead
rewrites `!= null` to `is not null` and `== null` to `is null`; the general
`field != value` rewrite to a quoted-empty-string comparison happens only in
console-equivalent mode, where `"fieldX != someLiteral"` becomes
`fieldX != ""`. -/
theorem c6_amended :
    fixQuerySyntax "a != null" = "a != \"\"" ∧
    fixQuerySyntax "a is not null" = "a != \"\"" ∧
    fixBasicSyntax "a != null" = "a is not null" ∧
    fixBasicSyntax "a == null" = "a is null" ∧
    consoleFixNormal "fieldX != someLiteral" = "fieldX != \"\"" ∧
    consoleFixBypass "fieldX != someLiteral" = "fieldX != \"\"" := by
  refine ⟨by decide, by decide, by decide, by decide, by decide, by decide⟩

/-- C8 counterexample: a query containing a rename stage is *not* excised by
the normalization pipeline: `validate_and_fix_query` matches the `rename`
preservation marker and returns the query unchanged, rename stage included. -/
theorem c8_counterexample :
    (validateAndFixQuery "* | rename a as b | head 5").fixedQuery =
      "* | rename a as b | head 5" ∧
    sContains ((validateAndFixQuery "* | rename a as b | head 5").fixedQuery)
      "| rename " = true := by
  refine ⟨by decide, by decide⟩

/-- C8 amended: any query containing `rename` is preserved verbatim by the
pipeline (`rename` is a preservation marker), so the rename-removal rule of
`_fix_basic_syntax` is never reached through the pipeline; the rule itself,
applied directly, excises the rename stage and keeps the pipe that follows
it, e.g. `"xyz | rename f as g | head 5"` becomes `"xyz   | head 5"`. -/
theorem c8_amended (q : String) (h : sContains q "rename" = true) :
    validateAndFixQuery q =
      ⟨true, q, q, ⟨true, [preservedWarning]⟩, [preservedWarning]⟩ ∧
    fixBasicSyntax "xyz | rename f as g | head 5" = "xyz   | head 5" :=
  ⟨validateAndFixQuery_preserved q (shouldPreserve_of_rename q h), by decide⟩

theorem c8_amended_witness :
    validateAndFixQuery "* | rename a as b" =
      ⟨true, "* | rename a as b", "* | rename a as b",
       ⟨true, [preservedWarning]⟩, [preservedWarning]⟩ ∧
    fixBasicSyntax "xyz | rename f as g | head 5" = "xyz   | head 5" :=
  c8_amended "* | rename a as b" (by decide)

/-- C9 counterexample: the ranking-verb rewrite is not applied for every
field name — `top 10 SourceIP` survives `_fix_basic_syntax` unchanged — and
`_fix_query_syntax` handles only the literal `| top 10 Count`, leaving
`top 7 Count` unchanged. -/
theorem c9_counterexample :
    fixBasicSyntax "* | top 10 SourceIP" = "* | top 10 SourceIP" ∧
    fixQuerySyntax "* | top 7 Count" = "* | top 7 Count" := by
  refine ⟨by decide, by decide⟩

/-- C7 counterexample: the syntax normalizers are not idempotent.  With two
`count(field)` groups, `_fix_query_syntax` rewrites only the first on the
first pass (`re.sub` continues scanning after a match, and the replacement
juxtaposed with the remaining text forms a fresh match), so a second pass
changes the query again; with two rename stages, `_fix_basic_syntax`
removes only one per pass. -/
theorem c7_counterexample :
    fixQuerySyntax (fixQuerySyntax "stats count('a')('b')") ≠
      fixQuerySyntax "stats count('a')('b')" ∧
    fixBasicSyntax (fixBasicSyntax "a | rename x | rename y | b") ≠
      fixBasicSyntax "a | rename x | rename y | b" := by
  refine ⟨by decide, by decide⟩

/-- C7 amended: the normalizer is not idempotent in general (stacked
`count(field)` groups and stacked rename stages change again on a second
pass); however, every query containing none of the rewrite triggers of
`_fix_query_syntax` is a fixed point of it. -/
theorem c7_amended_fixed_point (q : String)
    (h1 : sContains q "Action in (drop, reject)" = false)
    (h2 : sContains q "!= null" = false)
    (h3 : sContains q "is not null" = false)
    (h4 : sContains q "stats count(*)" = false)
    (h5 : sContains q "count('Host IP Address (Client)')" = false)
    (h6 : hasCFMatch q.data = false)
    (h7 : sContains q "'Event ID'" = false)
    (h8 : sContains q "| top 10 Count" = false)
    (h9 : sContains q "| lookup" = false) :
    fixQuerySyntax q = q := by
  simp only [fixQuerySyntax, sReplace_of_not_contains q _ _ h1,
    sReplace_of_not_contains q _ _ h2, sReplace_of_not_contains q _ _ h3,
    sReplace_of_not_contains q _ _ h4, h5, h6, Bool.and_false, Bool.false_and,
    Bool.false_eq_true, if_false, sReplace_of_not_contains q _ _ h7,
    sReplace_of_not_contains q _ _ h8, h9]

theorem c7_amended_fixed_point_witness :
    fixQuerySyntax "'Log Source' in ('OCI Audit Logs') | head 5" =
      "'Log Source' in ('OCI Audit Logs') | head 5" :=
  c7_amended_fixed_point "'Log Source' in ('OCI Audit Logs') | head 5"
    (by decide) (by decide) (by decide) (by decide) (by decide) (by decide)
    (by decide) (by decide) (by decide)

/-- C5 counterexample: a primary execution that fails with a backend
structured error is *not* always followed by a fallback attempt.  For a
query that already carries a time filter, `execute_query` takes the branch
without time injection, where a service error is terminal: the fallback tier
is attempted zero times. -/
theorem c5_counterexample :
    (executeQuery alwaysRejectBackend "* | where Time > dateRelative(1h)" 1440).success
        = false ∧
    (executeQuery alwaysRejectBackend "* | where Time > dateRelative(1h)" 1440).fallbackAttempts
        = 0 := by
  refine ⟨by decide, by decide⟩

/-- C5 amended: only on the time-injection path (nonzero minute count and no
pre-existing time filter after syntax fixing) does a backend structured
error trigger the fallback, and then exactly once: the fallback re-runs the
syntax fixes on the original input, strips the trailing sort stage when both
a stats and a sort stage are present, and submits without a time filter;
`fallback_used=true` is reported exactly on fallback success, and a fallback
failure is terminal with the backend's error message surfaced. -/
theorem c5_amended_fallback_once (backend : String → Except BackendErr BackendResp)
    (q : String) (m : Nat) (e : BackendErr)
    (hm : (m != 0) = true)
    (ht : hasTimeFilter (fixQuerySyntax q) = false)
    (hfail : backend (addTimeFilterWithField (fixQuerySyntax q) m) = .error e) :
    (executeQuery backend q m).fallbackAttempts = 1 ∧
    ((executeQuery backend q m).fallbackUsed = true ↔
      ∃ resp, backend (fallbackQueryOf q) = .ok resp) ∧
    (∀ e2, backend (fallbackQueryOf q) = .error e2 →
      (executeQuery backend q m).success = false ∧
      (executeQuery backend q m).errMsg =
        some ("OCI Service Error: " ++ e2.message)) := by
  have hexec : executeQuery backend q m = executeQueryFallback backend q := by
    simp only [executeQuery, hm, ht, Bool.not_false, Bool.and_self, if_true, hfail]
  rw [hexec]
  simp only [executeQueryFallback]
  cases hb : backend (fallbackQueryOf q) with
  | ok r =>
    refine ⟨rfl, ⟨fun _ => ⟨r, rfl⟩, fun _ => rfl⟩, ?_⟩
    intro e2 he2
    cases he2
  | error e2 =>
    refine ⟨rfl, ?_, ?_⟩
    · simp
    · intro e3 he3
      injection he3 with he
      subst he
      exact ⟨rfl, rfl⟩

theorem c5_amended_fallback_once_witness :
    (executeQuery selectiveBackend "abc | head 2" 60).fallbackAttempts = 1 ∧
    ((executeQuery selectiveBackend "abc | head 2" 60).fallbackUsed = true ↔
      ∃ resp, selectiveBackend (fallbackQueryOf "abc | head 2") = .ok resp) ∧
    (∀ e2, selectiveBackend (fallbackQueryOf "abc | head 2") = .error e2 →
      (executeQuery selectiveBackend "abc | head 2" 60).success = false ∧
      (executeQuery selectiveBackend "abc | head 2" 60).errMsg =
        some ("OCI Service Error: " ++ e2.message)) :=
  c5_amended_fallback_once selectiveBackend "abc | head 2" 60
    ⟨"InvalidParameter", "bad syntax"⟩ (by decide) (by decide) (by rfl)

/-- C10: in console-equivalent mode the outgoing query string is the same
whether `bypass_all_processing` is true or false — both branches apply
exactly the same null-comparison and inequality fixes, so the flag has no
observable effect on the query sent to the backend. -/
theorem c10_console_bypass_no_effect (q : String) :
    consoleQueryString true q = consoleQueryString false q := rfl

set_option maxHeartbeats 2000000 in
/-- C9 amended: the ranking-verb rewrite of `_fix_basic_syntax` handles every
count `N` but only the hardcoded field `Count`: for every nonempty digit
string `N`, `"* | top N Count"` is rewritten to `"* | sort -Count | head N"`;
`_fix_query_syntax` handles only the literal `| top 10 Count` and leaves every
other count unchanged. -/
theorem c9_amended_top_rewrite (ds : List Char) (hne : ds ≠ [])
    (hdig : ds.all Char.isDigit = true) :
    fixBasicSyntax ⟨("* | top ").data ++ ds ++ (" Count").data⟩ =
      ⟨("* | sort -Count | head ").data ++ ds⟩ ∧
    fixQuerySyntax "* | top 10 Count" = "* | sort -Count | head 10" ∧
    fixQuerySyntax "* | top 7 Count" = "* | top 7 Count" := by
  refine ⟨?_, by decide, by decide⟩
  have hds' : ∀ c ∈ ds, c.isDigit = true := List.all_eq_true.mp hdig
  by_cases h10 : ds = ("10").data
  · subst h10
    show fixBasicSyntax "* | top 10 Count" = "* | sort -Count | head 10"
    decide
  by_cases h5c : ds = ("5").data
  · subst h5c
    show fixBasicSyntax "* | top 5 Count" = "* | sort -Count | head 5"
    decide
  obtain ⟨d, ds', rfl⟩ := List.exists_cons_of_ne_nil hne
  have hd : d.isDigit = true := hds' d (List.mem_cons_self d ds')
  have hds'' : ds'.all Char.isDigit = true :=
    List.all_eq_true.mpr (fun c hc => hds' c (List.mem_cons_of_mem d hc))
  have hIchar : ∀ x : Char, x.isDigit = false → x ∉ ("* | top ").data →
      x ∉ (" Count").data →
      x ∉ ("* | top ").data ++ (d :: ds') ++ (" Count").data := by
    intro x hx h1 h2 hmem
    rcases List.mem_append.mp hmem with hm | hm
    · rcases List.mem_append.mp hm with hm' | hm'
      · exact h1 hm'
      · rw [hds' x hm'] at hx; cases hx
    · exact h2 hm
  have e1 : sContains ⟨("* | top ").data ++ (d :: ds') ++ (" Count").data⟩ "!= null" = false :=
    not_containsSub_of_not_mem _ _ '!' (by decide) (hIchar '!' (by decide) (by decide) (by decide))
  have e2 : sContains ⟨("* | top ").data ++ (d :: ds') ++ (" Count").data⟩ "== null" = false :=
    not_containsSub_of_not_mem _ _ '=' (by decide) (hIchar '=' (by decide) (by decide) (by decide))
  have e3 : sContains ⟨("* | top ").data ++ (d :: ds') ++ (" Count").data⟩
      "(drop, reject)" = false :=
    not_containsSub_of_not_mem _ _ '(' (by decide) (hIchar '(' (by decide) (by decide) (by decide))
  have e4 : sContains ⟨("* | top ").data ++ (d :: ds') ++ (" Count").data⟩
      "(accept, allow)" = false :=
    not_containsSub_of_not_mem _ _ '(' (by decide) (hIchar '(' (by decide) (by decide) (by decide))
  have hpipe_rest : ('|' : Char) ∉ (" top ").data ++ (d :: ds') ++ (" Count").data := by
    intro hm
    rcases List.mem_append.mp hm with hm' | hm'
    · rcases List.mem_append.mp hm' with hm2 | hm2
      · exact absurd hm2 (by decide)
      · exact absurd (hds' _ hm2) (by decide)
    · exact absurd hm' (by decide)
  have hsplit : ∀ ptail : List Char,
      containsSub (("* | top ").data ++ (d :: ds') ++ (" Count").data) ('|' :: ptail) = true →
      ∃ b, ptail ++ b = (" top ").data ++ (d :: ds') ++ (" Count").data := by
    intro ptail hc
    obtain ⟨a, b, hab⟩ := (containsSub_iff _ _).mp hc
    rw [List.append_assoc] at hab
    have hab' : ("* ").data ++ '|' :: ((" top ").data ++ (d :: ds') ++ (" Count").data)
        = a ++ '|' :: (ptail ++ b) := by simpa using hab
    obtain ⟨ha, hdq⟩ := split_at_unique_mem '|' (("* ").data) a
      ((" top ").data ++ (d :: ds') ++ (" Count").data) (ptail ++ b)
      (by decide) hpipe_rest hab'
    exact ⟨b, hdq⟩
  have hlit10 : sContains ⟨("* | top ").data ++ (d :: ds') ++ (" Count").data⟩
      "| top 10 Count" = false := by
    show containsSub (("* | top ").data ++ (d :: ds') ++ (" Count").data)
      (("| top 10 Count").data) = false
    cases hc : containsSub (("* | top ").data ++ (d :: ds') ++ (" Count").data)
        (("| top 10 Count").data) with
    | false => rfl
    | true =>
      exfalso
      obtain ⟨b, hb⟩ := hsplit ((" top 10 Count").data) hc
      have hb2 : (" top ").data ++ (("10 Count").data ++ b) =
          (" top ").data ++ ((d :: ds') ++ (" Count").data) := by
        rw [← List.append_assoc, ← List.append_assoc]
        exact hb
      have hb3 := List.append_cancel_left hb2
      have hTW := congrArg (List.takeWhile Char.isDigit) hb3
      rw [takeWhile_append_of_not_all Char.isDigit (("10 Count").data) b (by decide),
          takeWhile_append_of_all Char.isDigit (d :: ds') ((" Count").data)
            (by rw [List.all_cons, hd, Bool.true_and]; exact hds''),
          show List.takeWhile Char.isDigit (("10 Count").data) = ("10").data from rfl,
          show List.takeWhile Char.isDigit ((" Count").data) = [] from rfl,
          List.append_nil] at hTW
      exact h10 hTW.symm
  have hlit5 : sContains ⟨("* | top ").data ++ (d :: ds') ++ (" Count").data⟩
      "| top 5 Count" = false := by
    show containsSub (("* | top ").data ++ (d :: ds') ++ (" Count").data)
      (("| top 5 Count").data) = false
    cases hc : containsSub (("* | top ").data ++ (d :: ds') ++ (" Count").data)
        (("| top 5 Count").data) with
    | false => rfl
    | true =>
      exfalso
      obtain ⟨b, hb⟩ := hsplit ((" top 5 Count").data) hc
      have hb2 : (" top ").data ++ (("5 Count").data ++ b) =
          (" top ").data ++ ((d :: ds') ++ (" Count").data) := by
        rw [← List.append_assoc, ← List.append_assoc]
        exact hb
      have hb3 := List.append_cancel_left hb2
      have hTW := congrArg (List.takeWhile Char.isDigit) hb3
      rw [takeWhile_append_of_not_all Char.isDigit (("5 Count").data) b (by decide),
          takeWhile_append_of_all Char.isDigit (d :: ds') ((" Count").data)
            (by rw [List.all_cons, hd, Bool.true_and]; exact hds''),
          show List.takeWhile Char.isDigit (("5 Count").data) = ("5").data from rfl,
          show List.takeWhile Char.isDigit ((" Count").data) = [] from rfl,
          List.append_nil] at hTW
      exact h5c hTW.symm
  have hlitC : sContains ⟨("* | top ").data ++ (d :: ds') ++ (" Count").data⟩
      "| top Count" = false := by
    show containsSub (("* | top ").data ++ (d :: ds') ++ (" Count").data)
      (("| top Count").data) = false
    cases hc : containsSub (("* | top ").data ++ (d :: ds') ++ (" Count").data)
        (("| top Count").data) with
    | false => rfl
    | true =>
      exfalso
      obtain ⟨b, hb⟩ := hsplit ((" top Count").data) hc
      have hb2 : (" top ").data ++ (("Count").data ++ b) =
          (" top ").data ++ ((d :: ds') ++ (" Count").data) := by
        rw [← List.append_assoc, ← List.append_assoc]
        exact hb
      have hb3 := List.append_cancel_left hb2
      have hTW := congrArg (List.takeWhile Char.isDigit) hb3
      rw [takeWhile_append_of_not_all Char.isDigit (("Count").data) b (by decide),
          takeWhile_append_of_all Char.isDigit (d :: ds') ((" Count").data)
            (by rw [List.all_cons, hd, Bool.true_and]; exact hds''),
          show List.takeWhile Char.isDigit (("Count").data) = [] from rfl,
          show List.takeWhile Char.isDigit ((" Count").data) = [] from rfl,
          List.append_nil] at hTW
      cases hTW
  have hOchar : ∀ x : Char, x.isDigit = false → x ∉ ("* ").data →
      x ∉ ("| sort -Count | head ").data →
      x ∉ ("* ").data ++ (("| sort -Count | head ").data ++ (d :: ds')) := by
    intro x hx h1 h2 hm
    rcases List.mem_append.mp hm with hm' | hm'
    · exact h1 hm'
    · rcases List.mem_append.mp hm' with hm2 | hm2
      · exact h2 hm2
      · rw [hds' x hm2] at hx; cases hx
  have hren : sContains ⟨("* ").data ++ (("| sort -Count | head ").data ++ (d :: ds'))⟩
      "| rename " = false :=
    not_containsSub_of_not_mem _ _ 'm' (by decide)
      (hOchar 'm' (by decide) (by decide) (by decide))
  have hlastSearch : ∀ c : Char, (("| search ").data).getLast? = some c → c.isDigit = false := by
    intro c hch
    have h0 : (("| search ").data).getLast? = some ' ' := rfl
    rw [h0] at hch
    injection hch with hc
    rw [← hc]
    rfl
  have hlow : lowerList (("* ").data ++ (("| sort -Count | head ").data ++ (d :: ds'))) =
      ("* | sort -count | head ").data ++ (d :: ds') := by
    unfold lowerList
    rw [List.map_append, List.map_append,
        show List.map Char.toLower (("* ").data) = ("* ").data from rfl,
        show List.map Char.toLower (("| sort -Count | head ").data) =
          ("| sort -count | head ").data from rfl,
        List.map_congr_left (fun a ha => toLower_of_isDigit a (hds' a ha)), List.map_id']
    rfl
  have hsearch : sContains
      (sLower ⟨("* ").data ++ (("| sort -Count | head ").data ++ (d :: ds'))⟩)
      "| search " = false := by
    show containsSub (lowerList (("* ").data ++ (("| sort -Count | head ").data ++ (d :: ds'))))
      (("| search ").data) = false
    rw [hlow]
    cases hc : containsSub ((("* | sort -count | head ").data ++ (d :: ds')))
        (("| search ").data) with
    | false => rfl
    | true =>
      exfalso
      have hcc := containsSub_append_digits (d :: ds') (("| search ").data)
        hds' hlastSearch (("* | sort -count | head ").data) hc
      exact absurd hcc (by decide)
  have hlen : (("* | top ").data ++ (d :: ds') ++ (" Count").data).length =
      ds'.length + 12 + 3 := by
    simp [List.length_append, List.length_cons]
  have hrun := topSubAux_run (ds'.length + 12) d ds' hd hds''
  have hdat : (⟨("* | top ").data ++ (d :: ds') ++ (" Count").data⟩ : String).data =
      ("* | top ").data ++ (d :: ds') ++ (" Count").data := rfl
  refine fixBasicSyntax_via _ _ e1 e2 e3 e4 hlit10 hlit5 hlitC ?_ hren hsearch
  rw [hdat, hlen, hrun]
  rfl

theorem c9_amended_top_rewrite_witness :
    (fixBasicSyntax ⟨("* | top ").data ++ ("37").data ++ (" Count").data⟩ =
      ⟨("* | sort -Count | head ").data ++ ("37").data⟩) ∧
    fixQuerySyntax "* | top 10 Count" = "* | sort -Count | head 10" ∧
    fixQuerySyntax "* | top 7 Count" = "* | top 7 Count" :=
  c9_amended_top_rewrite ("37").data (by decide) (by decide)

end OciLogan
